import Mathlib

/-!
Verification of the mls-rs MLS group-state engine core against its
specification.  The definitions below are shallow embeddings of the Rust
sources: `aws-mls/src/group/message_processor.rs`,
`aws-mls/src/group/commit.rs`, `src/group/proposal_filter/*.rs`,
`aws-mls-core/src/group/roster.rs` and
`aws-mls-crypto-rustcrypto/src/aead.rs`.  Byte strings are lists of
naturals; machine integers are naturals (no arithmetic in the embedded
code overflows).  Fallible Rust functions return `Except`.  Code of the
repository that is not among the staged sources (trait implementations,
external crates) is represented by explicit environments of
oracle functions, or modelled from the specification where noted.
-/

set_option maxHeartbeats 1000000

namespace MlsSpec

/-- Byte strings, as lists of byte values. -/
abbrev Bytes := List Nat

/-- Leaf index into the ratchet tree (`tree_kem::node::LeafIndex`). -/
abbrev LeafIndex := Nat

/-- Sender of framed MLS content (`group::framing::Sender`). -/
inductive Sender where
  | Member (leaf : LeafIndex)
  | External (idx : Nat)
  | NewMemberProposal
  | NewMemberCommit
deriving DecidableEq

/-- A `RemoveProposal` names the leaf to blank (`proposal::RemoveProposal`). -/
structure RemoveProposal where
  to_remove : LeafIndex
deriving DecidableEq

/-- An `UpdateProposal` carries the sender's replacement leaf node; the leaf
node body is opaque to the proposal filter and is modelled by a tag. -/
structure UpdateProposal where
  leaf_node : Nat
deriving DecidableEq

/-- A proposal together with the sender that authored it, as the
`ProposalBundle` stores entries of one proposal type. -/
structure ProposalInfo (α : Type) where
  proposal : α
  sender : Sender
deriving DecidableEq

/-- The per-type proposal store handed to proposal filters.  The crate keeps
one list per proposal type; `SingleProposalForLeaf` reads and rewrites only
the Remove and Update lists, so the remaining typed lists, which every path
of the filter passes through untouched, are collapsed into `rest`. -/
structure ProposalBundle where
  removals : List (ProposalInfo RemoveProposal)
  updates : List (ProposalInfo UpdateProposal)
  rest : List Nat
deriving DecidableEq

/-- Errors of the proposal-filter framework
(`proposal_filter::filter::ProposalFilterError`); only the constructors
reachable from the embedded filter are listed. -/
inductive ProposalFilterError where
  | MoreThanOneProposalForLeaf (leaf : LeafIndex)
  | InvalidCommitSelfUpdate
  | CommitterSelfRemoval
deriving DecidableEq

/-- Decidable equality of `Except` results, used to evaluate the embedded
fallible functions on concrete inputs. -/
instance exceptDecEq {ε α : Type} [DecidableEq ε] [DecidableEq α] :
    DecidableEq (Except ε α) := fun x y =>
  match x, y with
  | .ok a, .ok b =>
    if h : a = b then .isTrue (by rw [h]) else .isFalse (by simp [h])
  | .error a, .error b =>
    if h : a = b then .isTrue (by rw [h]) else .isFalse (by simp [h])
  | .ok _, .error _ => .isFalse (by simp)
  | .error _, .ok _ => .isFalse (by simp)

/-- `HashSet::insert`: `true` exactly when the element was absent.  The set
is modelled by the list of its elements, most recent first. -/
def hsInsert (s : List Nat) (x : Nat) : Bool × List Nat :=
  if x ∈ s then (false, s) else (true, x :: s)

/-- Remove targets of a removal list, in order. -/
def remLeaves (rs : List (ProposalInfo RemoveProposal)) : List Nat :=
  rs.map (fun p => p.proposal.to_remove)

/-- The leaf of a member sender; `none` for every other sender kind.  This
is the discrimination `match &p.sender { Sender::Member(leaf) => .. }`
performed by both passes of `SingleProposalForLeaf`. -/
def memberLeaf : Sender → Option Nat
  | Sender.Member leaf => some leaf
  | _ => none

/-- Sender leaves of the member-sent updates of an update list, in order;
updates from non-member senders contribute nothing. -/
def updLeaves (us : List (ProposalInfo UpdateProposal)) : List Nat :=
  us.filterMap (fun p => memberLeaf p.sender)

/-- The sequence of leaf indices `SingleProposalForLeaf::validate` folds
over: Remove targets first, then sender leaves of member-sent Updates. -/
def proposalLeaves (b : ProposalBundle) : List Nat :=
  remLeaves b.removals ++ updLeaves b.updates

/-- The `try_fold` of `SingleProposalForLeaf::validate`: insert each leaf
into the set, failing on the first duplicate. -/
def validateGo : List Nat → List Nat → Except ProposalFilterError Unit
  | [], _ => .ok ()
  | leaf :: ls, seen =>
    if leaf ∈ seen then .error (.MoreThanOneProposalForLeaf leaf)
    else validateGo ls (leaf :: seen)

/-- `SingleProposalForLeaf::validate`, from
`src/group/proposal_filter/single_proposal_for_leaf.rs`. -/
def SingleProposalForLeaf.validate (b : ProposalBundle) :
    Except ProposalFilterError Unit :=
  validateGo (proposalLeaves b) []

/-- The first `retain_by_type` pass of `SingleProposalForLeaf::filter`:
keep a Remove exactly when inserting its target into the shared set
succeeds. -/
def retainRemoves (s : List Nat) :
    List (ProposalInfo RemoveProposal) →
      List (ProposalInfo RemoveProposal) × List Nat
  | [] => ([], s)
  | p :: ps =>
    let ins := hsInsert s p.proposal.to_remove
    let rec1 := retainRemoves ins.2 ps
    (if ins.1 then p :: rec1.1 else rec1.1, rec1.2)

/-- The second `retain_by_type` pass of `SingleProposalForLeaf::filter`:
member-sent Updates are kept exactly when inserting the sender leaf into the
shared set succeeds; other Updates are always kept. -/
def retainUpdates (s : List Nat) :
    List (ProposalInfo UpdateProposal) →
      List (ProposalInfo UpdateProposal) × List Nat
  | [] => ([], s)
  | p :: ps =>
    match memberLeaf p.sender with
    | some leaf =>
      let ins := hsInsert s leaf
      let rec1 := retainUpdates ins.2 ps
      (if ins.1 then p :: rec1.1 else rec1.1, rec1.2)
    | none =>
      let rec1 := retainUpdates s ps
      (p :: rec1.1, rec1.2)

/-- The bundle rewriting performed by `SingleProposalForLeaf::filter`. -/
def filterImpl (b : ProposalBundle) : ProposalBundle :=
  let r := retainRemoves [] b.removals
  let u := retainUpdates r.2 b.updates
  { b with removals := r.1, updates := u.1 }

/-- `SingleProposalForLeaf::filter`, which always returns `Ok`. -/
def SingleProposalForLeaf.filter (b : ProposalBundle) :
    Except ProposalFilterError ProposalBundle :=
  .ok (filterImpl b)

theorem retainRemoves_snd (ps : List (ProposalInfo RemoveProposal))
    (s : List Nat) :
    (retainRemoves s ps).2 = (remLeaves (retainRemoves s ps).1).reverse ++ s := by
  induction ps generalizing s with
  | nil => simp [retainRemoves, remLeaves]
  | cons p ps ih =>
    by_cases h : p.proposal.to_remove ∈ s
    · simp [retainRemoves, hsInsert, h, ih]
    · simp [retainRemoves, hsInsert, h, ih, remLeaves]

theorem retainRemoves_nodup (ps : List (ProposalInfo RemoveProposal))
    (s : List Nat) (hs : s.Nodup) : ((retainRemoves s ps).2).Nodup := by
  induction ps generalizing s with
  | nil => simpa [retainRemoves]
  | cons p ps ih =>
    by_cases h : p.proposal.to_remove ∈ s
    · simpa [retainRemoves, hsInsert, h] using ih s hs
    · exact (by
        simpa [retainRemoves, hsInsert, h] using
          ih (p.proposal.to_remove :: s) (by simp [hs, h]))

theorem remLeaves_cons (p : ProposalInfo RemoveProposal)
    (ps : List (ProposalInfo RemoveProposal)) :
    remLeaves (p :: ps) = p.proposal.to_remove :: remLeaves ps := rfl

theorem retainRemoves_id (ps : List (ProposalInfo RemoveProposal))
    (s : List Nat) (hnd : (remLeaves ps).Nodup)
    (hdis : ∀ x ∈ remLeaves ps, x ∉ s) :
    (retainRemoves s ps).1 = ps := by
  induction ps generalizing s with
  | nil => simp [retainRemoves]
  | cons p ps ih =>
    rw [remLeaves_cons] at hnd hdis
    obtain ⟨hhead, hnd'⟩ := List.nodup_cons.mp hnd
    have hmem : p.proposal.to_remove ∉ s := hdis _ (by simp)
    have hdis' : ∀ x ∈ remLeaves ps, x ∉ p.proposal.to_remove :: s := by
      intro x hx
      simp only [List.mem_cons, not_or]
      exact ⟨fun hxe => hhead (hxe ▸ hx), hdis x (List.mem_cons_of_mem _ hx)⟩
    simp [retainRemoves, hsInsert, hmem, ih _ hnd' hdis']

theorem updLeaves_cons_some (p : ProposalInfo UpdateProposal)
    (ps : List (ProposalInfo UpdateProposal)) (leaf : Nat)
    (h : memberLeaf p.sender = some leaf) :
    updLeaves (p :: ps) = leaf :: updLeaves ps := by
  simp [updLeaves, List.filterMap_cons, h]

theorem updLeaves_cons_none (p : ProposalInfo UpdateProposal)
    (ps : List (ProposalInfo UpdateProposal))
    (h : memberLeaf p.sender = none) :
    updLeaves (p :: ps) = updLeaves ps := by
  simp [updLeaves, List.filterMap_cons, h]

theorem retainUpdates_snd (us : List (ProposalInfo UpdateProposal))
    (s : List Nat) :
    (retainUpdates s us).2 = (updLeaves (retainUpdates s us).1).reverse ++ s := by
  induction us generalizing s with
  | nil => simp [retainUpdates, updLeaves]
  | cons p ps ih =>
    cases hsend : memberLeaf p.sender with
    | some leaf =>
      by_cases h : leaf ∈ s
      · simp [retainUpdates, hsend, hsInsert, h, ih]
      · simp [retainUpdates, hsend, hsInsert, h, ih,
          updLeaves_cons_some _ _ _ hsend]
    | none =>
      simp [retainUpdates, hsend, ih, updLeaves_cons_none _ _ hsend]

theorem retainUpdates_nodup (us : List (ProposalInfo UpdateProposal))
    (s : List Nat) (hs : s.Nodup) : ((retainUpdates s us).2).Nodup := by
  induction us generalizing s with
  | nil => simpa [retainUpdates]
  | cons p ps ih =>
    cases hsend : memberLeaf p.sender with
    | some leaf =>
      by_cases h : leaf ∈ s
      · simpa [retainUpdates, hsend, hsInsert, h] using ih s hs
      · exact (by
          simpa [retainUpdates, hsend, hsInsert, h] using
            ih (leaf :: s) (by simp [hs, h]))
    | none => simpa [retainUpdates, hsend] using ih s hs

theorem retainUpdates_id (us : List (ProposalInfo UpdateProposal))
    (s : List Nat) (hnd : (updLeaves us).Nodup)
    (hdis : ∀ x ∈ updLeaves us, x ∉ s) :
    (retainUpdates s us).1 = us := by
  induction us generalizing s with
  | nil => simp [retainUpdates]
  | cons p ps ih =>
    cases hsend : memberLeaf p.sender with
    | some leaf =>
      rw [updLeaves_cons_some _ _ _ hsend] at hnd hdis
      obtain ⟨hhead, hnd'⟩ := List.nodup_cons.mp hnd
      have hmem : leaf ∉ s := hdis _ (by simp)
      have hdis' : ∀ x ∈ updLeaves ps, x ∉ leaf :: s := by
        intro x hx
        simp only [List.mem_cons, not_or]
        exact ⟨fun hxe => hhead (hxe ▸ hx), hdis x (List.mem_cons_of_mem _ hx)⟩
      simp [retainUpdates, hsend, hsInsert, hmem, ih _ hnd' hdis']
    | none =>
      rw [updLeaves_cons_none _ _ hsend] at hnd hdis
      simp [retainUpdates, hsend, ih s hnd hdis]

theorem validateGo_ok (ls seen : List Nat) :
    validateGo ls seen = .ok () ↔ ls.Nodup ∧ ∀ x ∈ ls, x ∉ seen := by
  induction ls generalizing seen with
  | nil => simp [validateGo]
  | cons x ls ih =>
    by_cases h : x ∈ seen
    · simp only [validateGo, if_pos h]
      constructor
      · intro hcontra; cases hcontra
      · rintro ⟨-, hall⟩
        exact absurd h (hall x (by simp))
    · simp only [validateGo, if_neg h, ih]
      constructor
      · rintro ⟨hnd, hall⟩
        have hx : x ∉ ls := fun hmem => (hall x hmem) (by simp)
        refine ⟨List.nodup_cons.mpr ⟨hx, hnd⟩, ?_⟩
        intro y hy
        rcases List.mem_cons.mp hy with rfl | hy'
        · exact h
        · intro hys
          exact hall y hy' (by simp [hys])
      · rintro ⟨hnd, hall⟩
        have hx : x ∉ ls := (List.nodup_cons.mp hnd).1
        refine ⟨(List.nodup_cons.mp hnd).2, ?_⟩
        intro y hy hymem
        rcases List.mem_cons.mp hymem with rfl | hys
        · exact hx hy
        · exact hall y (by simp [hy]) hys

theorem validateGo_error (ls : List Nat) :
    ∀ (seen : List Nat) (l : Nat),
      validateGo ls seen = .error (.MoreThanOneProposalForLeaf l) →
        2 ≤ ls.count l + seen.count l := by
  induction ls with
  | nil => intro seen l h; cases h
  | cons x ls ih =>
    intro seen l h
    by_cases hx : x ∈ seen
    · simp only [validateGo, if_pos hx] at h
      have hxl : x = l := by
        cases h; rfl
      subst hxl
      have h1 : 1 ≤ seen.count x := List.one_le_count_iff.mpr hx
      have h2 : 1 ≤ (x :: ls).count x := by
        simp [List.count_cons]
      omega
    · simp only [validateGo, if_neg hx] at h
      have := ih (x :: seen) l h
      by_cases hxl : x = l
      · subst hxl
        simp only [List.count_cons_self] at this ⊢
        omega
      · simp only [List.count_cons, if_neg hxl] at this ⊢
        omega

theorem validateGo_shape (ls : List Nat) :
    ∀ seen : List Nat, validateGo ls seen = .ok () ∨
      ∃ l, validateGo ls seen = .error (.MoreThanOneProposalForLeaf l) := by
  induction ls with
  | nil => intro seen; left; rfl
  | cons x ls ih =>
    intro seen
    by_cases hx : x ∈ seen
    · right; exact ⟨x, by simp [validateGo, hx]⟩
    · simpa [validateGo, hx] using ih (x :: seen)

theorem filterImpl_idem (b : ProposalBundle) :
    filterImpl (filterImpl b) = filterImpl b := by
  have hr1snd := retainRemoves_snd b.removals []
  have hr1nodup := retainRemoves_nodup b.removals [] List.nodup_nil
  set r1 := (retainRemoves [] b.removals).1 with hr1
  set s1 := (retainRemoves [] b.removals).2 with hs1
  have hu1snd := retainUpdates_snd b.updates s1
  have hu1nodup := retainUpdates_nodup b.updates s1 hr1nodup
  set u1 := (retainUpdates s1 b.updates).1 with hu1
  set s2 := (retainUpdates s1 b.updates).2 with hs2
  -- the leaves kept in the first pass are duplicate-free
  have hremnd : (remLeaves r1).Nodup := by
    have := hr1nodup
    rw [hr1snd] at this
    simpa using this.of_append_left
  have hrem_eq : retainRemoves [] r1 = (r1, s1) := by
    have hfst : (retainRemoves [] r1).1 = r1 :=
      retainRemoves_id r1 [] hremnd (by simp)
    have hsnd : (retainRemoves [] r1).2 = s1 := by
      rw [retainRemoves_snd, hfst, hr1snd]
    exact Prod.ext hfst hsnd
  have hupdnd : (updLeaves u1).Nodup := by
    have := hu1nodup
    rw [hu1snd] at this
    simpa using this.of_append_left
  have hupddis : ∀ x ∈ updLeaves u1, x ∉ s1 := by
    have := hu1nodup
    rw [hu1snd] at this
    have hdis := (List.nodup_append.mp this).2.2
    intro x hx hxs
    exact hdis (by simpa using hx) hxs
  have hupd_eq : (retainUpdates s1 u1).1 = u1 :=
    retainUpdates_id u1 s1 hupdnd hupddis
  show filterImpl { b with removals := r1, updates := u1 } =
    { b with removals := r1, updates := u1 }
  simp only [filterImpl, hrem_eq, hupd_eq]

/-- Claim C3: `SingleProposalForLeaf` is idempotent in filter-out mode —
composing the filter with itself equals one application — and whenever
`validate` accepts a bundle, `filter` returns it unchanged. -/
theorem single_proposal_filter_idempotent (b : ProposalBundle) :
    (SingleProposalForLeaf.filter b).bind SingleProposalForLeaf.filter =
        SingleProposalForLeaf.filter b ∧
      (SingleProposalForLeaf.validate b = .ok () →
        SingleProposalForLeaf.filter b = .ok b) := by
  constructor
  · simp [SingleProposalForLeaf.filter, Except.bind, filterImpl_idem]
  · intro hval
    have hnd : (proposalLeaves b).Nodup := by
      have := (validateGo_ok (proposalLeaves b) []).mp hval
      exact this.1
    have hremnd : (remLeaves b.removals).Nodup :=
      (List.nodup_append.mp hnd).1
    have hupdnd : (updLeaves b.updates).Nodup :=
      (List.nodup_append.mp hnd).2.1
    have hdis := (List.nodup_append.mp hnd).2.2
    have hrfst : (retainRemoves [] b.removals).1 = b.removals :=
      retainRemoves_id b.removals [] hremnd (by simp)
    have hrsnd : (retainRemoves [] b.removals).2 =
        (remLeaves b.removals).reverse := by
      rw [retainRemoves_snd, hrfst]; simp
    have hupddis : ∀ x ∈ updLeaves b.updates,
        x ∉ (retainRemoves [] b.removals).2 := by
      intro x hx
      rw [hrsnd]
      intro hmem
      exact hdis (by simpa using hmem) hx
    have hufst : (retainUpdates (retainRemoves [] b.removals).2 b.updates).1 =
        b.updates :=
      retainUpdates_id b.updates _ hupdnd hupddis
    simp only [SingleProposalForLeaf.filter, filterImpl, hrfst, hufst]

/-- Witness for C3 at a concrete bundle with a duplicated leaf. -/
theorem single_proposal_filter_idempotent_witness :
    SingleProposalForLeaf.filter
        { removals := [⟨⟨3⟩, Sender.Member 0⟩], updates := [], rest := [7] } =
      .ok { removals := [⟨⟨3⟩, Sender.Member 0⟩], updates := [], rest := [7] } :=
  (single_proposal_filter_idempotent
    { removals := [⟨⟨3⟩, Sender.Member 0⟩], updates := [], rest := [7] }).2
    (by decide)

/-- Claim C4: `validate` accepts a bundle exactly when the Remove targets
together with the sender leaves of member-sent Updates are pairwise
distinct; otherwise it fails with `MoreThanOneProposalForLeaf l` for a leaf
`l` that occurs at least twice in that combined sequence.  Updates from
non-member senders contribute no leaf (see `updLeaves`). -/
theorem single_proposal_validate_characterisation (b : ProposalBundle) :
    (SingleProposalForLeaf.validate b = .ok () ↔ (proposalLeaves b).Nodup) ∧
      (SingleProposalForLeaf.validate b ≠ .ok () →
        ∃ l, SingleProposalForLeaf.validate b =
            .error (.MoreThanOneProposalForLeaf l) ∧
          2 ≤ (proposalLeaves b).count l) := by
  constructor
  · rw [SingleProposalForLeaf.validate, validateGo_ok]
    simp
  · intro hne
    rcases validateGo_shape (proposalLeaves b) [] with h | ⟨l, h⟩
    · exact absurd h hne
    · refine ⟨l, h, ?_⟩
      have := validateGo_error (proposalLeaves b) [] l h
      simpa using this

/-- Witness for C4: a bundle with a Remove and a member Update aimed at the
same leaf is rejected naming that leaf. -/
theorem single_proposal_validate_witness :
    ∃ l, SingleProposalForLeaf.validate
          { removals := [⟨⟨5⟩, Sender.Member 0⟩],
            updates := [⟨⟨9⟩, Sender.Member 5⟩], rest := [] } =
        .error (.MoreThanOneProposalForLeaf l) ∧
      2 ≤ (proposalLeaves
          { removals := [⟨⟨5⟩, Sender.Member 0⟩],
            updates := [⟨⟨9⟩, Sender.Member 5⟩], rest := [] }).count l :=
  (single_proposal_validate_characterisation
    { removals := [⟨⟨5⟩, Sender.Member 0⟩],
      updates := [⟨⟨9⟩, Sender.Member 5⟩], rest := [] }).2 (by decide)

/-! Roster updates, from `aws-mls-core/src/group/roster.rs`.  The signing
identity, capabilities and extensions of a member are opaque payloads. -/

/-- A member of an MLS group (`roster::Member`). -/
structure Member where
  index : Nat
  signing_identity : Nat
  capabilities : Nat
  extensions : Nat
deriving DecidableEq

/-- Update of a member due to a commit (`roster::MemberUpdate`). -/
structure MemberUpdate where
  prior : Member
  new : Member
deriving DecidableEq

/-- `MemberUpdate::index`: the index that was updated. -/
def MemberUpdate.index (u : MemberUpdate) : Nat := u.new.index

/-- A set of roster updates due to a commit (`roster::RosterUpdate`). -/
structure RosterUpdate where
  added : List Member
  removed : List Member
  updated : List MemberUpdate
deriving DecidableEq

/-- Comparison of members by group index, the key of
`added.sort_by_key(|m| m.index)`. -/
def memberIdxLe (a b : Member) : Prop := a.index ≤ b.index

instance : DecidableRel memberIdxLe := fun a b => Nat.decLe a.index b.index

instance : IsTotal Member memberIdxLe := ⟨fun a b => Nat.le_total a.index b.index⟩

instance : IsTrans Member memberIdxLe :=
  ⟨fun _ _ _ hab hbc => Nat.le_trans hab hbc⟩

/-- Comparison of member updates by the updated index, the key of
`updated.sort_by_key(|u| u.index())`. -/
def updateIdxLe (a b : MemberUpdate) : Prop := a.index ≤ b.index

instance : DecidableRel updateIdxLe := fun a b => Nat.decLe a.index b.index

instance : IsTotal MemberUpdate updateIdxLe :=
  ⟨fun a b => Nat.le_total a.index b.index⟩

instance : IsTrans MemberUpdate updateIdxLe :=
  ⟨fun _ _ _ hab hbc => Nat.le_trans hab hbc⟩

/-- `RosterUpdate::new` sorts the three lists by index.  Rust's
`sort_by_key` is a stable comparison sort; insertion sort is stable as
well, so the two agree on every input. -/
def RosterUpdate.new (added removed : List Member)
    (updated : List MemberUpdate) : RosterUpdate :=
  { added := List.insertionSort memberIdxLe added
  , removed := List.insertionSort memberIdxLe removed
  , updated := List.insertionSort updateIdxLe updated }

/-- Claim C10: `RosterUpdate::new` returns `added` and `removed` sorted
ascending by member index and `updated` sorted ascending by updated index,
each a permutation of the corresponding input list. -/
theorem roster_update_new_sorted_perm (added removed : List Member)
    (updated : List MemberUpdate) :
    ((RosterUpdate.new added removed updated).added.Sorted memberIdxLe ∧
        (RosterUpdate.new added removed updated).added.Perm added) ∧
      ((RosterUpdate.new added removed updated).removed.Sorted memberIdxLe ∧
        (RosterUpdate.new added removed updated).removed.Perm removed) ∧
      ((RosterUpdate.new added removed updated).updated.Sorted updateIdxLe ∧
        (RosterUpdate.new added removed updated).updated.Perm updated) :=
  ⟨⟨List.sorted_insertionSort memberIdxLe added,
      List.perm_insertionSort memberIdxLe added⟩,
    ⟨List.sorted_insertionSort memberIdxLe removed,
      List.perm_insertionSort memberIdxLe removed⟩,
    ⟨List.sorted_insertionSort updateIdxLe updated,
      List.perm_insertionSort updateIdxLe updated⟩⟩

/-! AEAD pre-checks, from `aws-mls-crypto-rustcrypto/src/aead.rs`. -/

/-- AEAD tag length in bytes (`aead::TAG_LEN`). -/
def TAG_LEN : Nat := 16

/-- AEAD nonce length in bytes (`aead::NONCE_LEN`). -/
def NONCE_LEN : Nat := 12

/-- The AEAD variants of RFC 9180, Table 5 (`aead::Aead`). -/
inductive Aead where
  | Aes128Gcm
  | Aes256Gcm
  | Chacha20Poly1305
deriving DecidableEq

/-- `Aead::key_size`. -/
def Aead.key_size : Aead → Nat
  | .Aes128Gcm => 16
  | .Aes256Gcm => 32
  | .Chacha20Poly1305 => 32

/-- `aead::AeadError`. -/
inductive AeadError where
  | RcAeadError
  | InvalidCipherLen (n : Nat)
  | EmptyPlaintext
  | InvalidKeyLen (got expected : Nat)
deriving DecidableEq

/-- Interface of the RustCrypto ciphers (`aes-gcm`, `chacha20poly1305`)
that `encrypt_aead_trait` and `decrypt_aead_trait` call.  Those live in
external crates outside this repository; per the specification every
current suite authenticates with a 16-byte tag, so a successful decryption
yields a plaintext exactly `TAG_LEN` bytes shorter than the ciphertext.
Arguments are nonce, message and associated data; `none` is a cipher
failure (`rc_aead::Error`). -/
structure RcCipher where
  encrypt : Bytes → Bytes → Bytes → Option Bytes
  decrypt : Bytes → Bytes → Bytes → Option Bytes
  decrypt_len : ∀ nonce ct aad pt, decrypt nonce ct aad = some pt →
    pt.length + TAG_LEN = ct.length

/-- The cipher constructors `Aes128Gcm::new`, `Aes256Gcm::new`,
`ChaCha20Poly1305::new`, keyed by variant and key bytes. -/
structure AeadEnv where
  cipher : Aead → Bytes → RcCipher

/-- `Aead::seal`: reject empty plaintext, then a key of the wrong length,
then run the cipher. -/
def Aead.seal (env : AeadEnv) (a : Aead) (key data : Bytes)
    (aad : Option Bytes) (nonce : Bytes) : Except AeadError Bytes :=
  if data.isEmpty then .error .EmptyPlaintext
  else if key.length ≠ a.key_size then
    .error (.InvalidKeyLen key.length a.key_size)
  else
    match (env.cipher a key).encrypt nonce data (aad.getD []) with
    | some ct => .ok ct
    | none => .error .RcAeadError

/-- `Aead::open`: reject a ciphertext not strictly longer than the tag,
then a key of the wrong length, then run the cipher. -/
def Aead.open' (env : AeadEnv) (a : Aead) (key ct : Bytes)
    (aad : Option Bytes) (nonce : Bytes) : Except AeadError Bytes :=
  if TAG_LEN < ct.length then
    if key.length ≠ a.key_size then
      .error (.InvalidKeyLen key.length a.key_size)
    else
      match (env.cipher a key).decrypt nonce ct (aad.getD []) with
      | some pt => .ok pt
      | none => .error .RcAeadError
  else .error (.InvalidCipherLen ct.length)

/-- A cipher that always fails; enough to evaluate the pre-checks, which
never reach the cipher. -/
def nullCipher : RcCipher :=
  { encrypt := fun _ _ _ => none
  , decrypt := fun _ _ _ => none
  , decrypt_len := by intro nonce ct aad pt h; cases h }

/-- An AEAD environment built from the always-failing cipher. -/
def nullAeadEnv : AeadEnv := ⟨fun _ _ => nullCipher⟩

/-- Counterexample to C8 as stated: with an empty plaintext and a key of
the wrong length (0 bytes instead of 16), `seal` returns `EmptyPlaintext`,
not `InvalidKeyLen`: the empty-plaintext check runs first. -/
theorem aead_seal_key_check_not_first :
    ([] : Bytes).length ≠ Aead.key_size .Aes128Gcm ∧
      Aead.seal nullAeadEnv .Aes128Gcm [] [] none (List.replicate 12 0) =
        .error .EmptyPlaintext ∧
      Aead.seal nullAeadEnv .Aes128Gcm [] [] none (List.replicate 12 0) ≠
        .error (.InvalidKeyLen 0 16) := by
  refine ⟨by decide, rfl, by decide⟩

/-- Claim C8 as amended: for every variant, `seal` rejects an empty
plaintext with `EmptyPlaintext`; `open` rejects a ciphertext shorter than
the 16-byte tag with `InvalidCipherLen`; and each operation rejects a key
whose length differs from the variant's key size (16 bytes for AES-128-GCM,
32 otherwise) with `InvalidKeyLen` provided its earlier length check passed
(non-empty plaintext for `seal`, ciphertext longer than the tag for
`open`) — all without invoking the cipher (the result does not depend on
the environment). -/
theorem aead_precheck_errors (env : AeadEnv) (a : Aead) (key data : Bytes)
    (aad : Option Bytes) (nonce : Bytes) :
    (Aead.key_size .Aes128Gcm = 16 ∧ Aead.key_size .Aes256Gcm = 32 ∧
        Aead.key_size .Chacha20Poly1305 = 32) ∧
      (data = [] → Aead.seal env a key data aad nonce = .error .EmptyPlaintext) ∧
      (data ≠ [] → key.length ≠ a.key_size →
        Aead.seal env a key data aad nonce =
          .error (.InvalidKeyLen key.length a.key_size)) ∧
      (∀ ct : Bytes, ct.length < TAG_LEN →
        Aead.open' env a key ct aad nonce =
          .error (.InvalidCipherLen ct.length)) ∧
      (∀ ct : Bytes, TAG_LEN < ct.length → key.length ≠ a.key_size →
        Aead.open' env a key ct aad nonce =
          .error (.InvalidKeyLen key.length a.key_size)) := by
  refine ⟨⟨rfl, rfl, rfl⟩, ?_, ?_, ?_, ?_⟩
  · intro h; subst h; rfl
  · intro hdata hkey
    have : data.isEmpty = false := by
      cases data with
      | nil => exact absurd rfl hdata
      | cons x xs => rfl
    simp [Aead.seal, this, hkey]
  · intro ct hct
    have : ¬ TAG_LEN < ct.length := by omega
    simp [Aead.open', this]
  · intro ct hct hkey
    simp [Aead.open', hct, hkey]

/-- Claim C9: `open` rejects a ciphertext of exactly `TAG_LEN` bytes with
`InvalidCipherLen TAG_LEN`, and whenever `open` succeeds the returned
plaintext is non-empty (its length is the ciphertext length minus the
16-byte tag, and the length check enforced strictly more than 16 bytes of
ciphertext). -/
theorem aead_open_never_empty (env : AeadEnv) (a : Aead) (key ct : Bytes)
    (aad : Option Bytes) (nonce : Bytes) :
    (ct.length = TAG_LEN →
      Aead.open' env a key ct aad nonce = .error (.InvalidCipherLen TAG_LEN)) ∧
      (∀ pt : Bytes, Aead.open' env a key ct aad nonce = .ok pt → pt ≠ []) := by
  constructor
  · intro h
    have : ¬ TAG_LEN < ct.length := by omega
    simp [Aead.open', this, h]
  · intro pt hok
    by_cases hlen : TAG_LEN < ct.length
    · rw [Aead.open', if_pos hlen] at hok
      by_cases hkey : key.length ≠ a.key_size
      · rw [if_pos hkey] at hok
        cases hok
      · rw [if_neg hkey] at hok
        cases hdec : (env.cipher a key).decrypt nonce ct (aad.getD []) with
        | some pt' =>
          rw [hdec] at hok
          have hpt : pt' = pt := by cases hok; rfl
          subst hpt
          have := (env.cipher a key).decrypt_len nonce ct (aad.getD []) pt' hdec
          have hlenpos : 0 < pt'.length := by
            have : TAG_LEN = 16 := rfl
            omega
          exact List.ne_nil_of_length_pos hlenpos
        | none =>
          rw [hdec] at hok
          cases hok
    · rw [Aead.open', if_neg hlen] at hok
      cases hok

/-! Message framing and the group data model, from
`aws-mls/src/group/message_processor.rs` and the framing types it reads.
Payloads the processor does not inspect (key packages, leaf nodes, trees,
secrets, extension lists) are opaque tags. -/

/-- Wire formats (`framing::WireFormat`). -/
inductive WireFormat where
  | Plain
  | Cipher
  | Welcome
  | GroupInfo
  | KeyPackage
deriving DecidableEq

/-- Content types (`framing::ContentType`). -/
inductive ContentType where
  | Application
  | Proposal
  | Commit
deriving DecidableEq

/-- `proposal::ReInitProposal`. -/
structure ReInitProposal where
  group_id : Bytes
  version : Nat
  cipher_suite : Nat
  extensions : Nat
deriving DecidableEq

/-- `proposal::CustomProposal`. -/
structure CustomProposal where
  proposal_type : Nat
  data : Bytes
deriving DecidableEq

/-- `proposal::Proposal`; payloads the processor does not inspect are
opaque. -/
inductive Proposal where
  | Add (key_package : Nat)
  | Update (u : UpdateProposal)
  | Remove (r : RemoveProposal)
  | Psk (psk : Nat)
  | ReInit (r : ReInitProposal)
  | ExternalInit (kem_output : Bytes)
  | GroupContextExtensions (ext : Nat)
  | Custom (c : CustomProposal)
deriving DecidableEq

/-- `proposal::ProposalOrRef`. -/
inductive ProposalOrRef where
  | Proposal (p : Proposal)
  | Reference (r : Nat)
deriving DecidableEq

/-- `tree_kem::UpdatePath`: the committer's new leaf plus the encrypted
path nodes. -/
structure UpdatePath where
  leaf_node : Nat
  nodes : List Nat
deriving DecidableEq

/-- `commit::Commit`. -/
structure Commit where
  proposals : List ProposalOrRef
  path : Option UpdatePath
deriving DecidableEq

/-- `framing::Content`. -/
inductive Content where
  | Application (data : Bytes)
  | Proposal (p : Proposal)
  | Commit (c : Commit)
deriving DecidableEq

/-- `Content::content_type`. -/
def Content.content_type : Content → ContentType
  | .Application _ => .Application
  | .Proposal _ => .Proposal
  | .Commit _ => .Commit

/-- The framed content of a plaintext or of authenticated content. -/
structure FramedContent where
  group_id : Bytes
  epoch : Nat
  sender : Sender
  authenticated_data : Bytes
  content : Content
deriving DecidableEq

/-- `content.content_type()` on framed content. -/
def FramedContent.content_type (c : FramedContent) : ContentType :=
  c.content.content_type

/-- Signature and optional confirmation tag of framed content. -/
structure AuthData where
  signature : Bytes
  confirmation_tag : Option Bytes
deriving DecidableEq

/-- `message_signature::MLSAuthenticatedContent`. -/
structure MLSAuthenticatedContent where
  wire_format : WireFormat
  content : FramedContent
  auth : AuthData
deriving DecidableEq

/-- `framing::MLSPlaintext`. -/
structure MLSPlaintext where
  content : FramedContent
  auth : AuthData
  membership_tag : Option Bytes
deriving DecidableEq

/-- `framing::MLSCiphertext`: only the unencrypted header fields the
processor reads before decryption are modelled; the sealed payload is
opaque. -/
structure MLSCiphertext where
  group_id : Bytes
  epoch : Nat
  content_type : ContentType
  authenticated_data : Bytes
  ciphertext : Bytes
deriving DecidableEq

/-- `framing::MLSMessagePayload`. -/
inductive MLSMessagePayload where
  | Plain (m : MLSPlaintext)
  | Cipher (m : MLSCiphertext)
  | Welcome (w : Nat)
  | GroupInfo (g : Nat)
  | KeyPackage (k : Nat)
deriving DecidableEq

/-- `framing::MLSMessage`. -/
structure MLSMessage where
  version : Nat
  payload : MLSMessagePayload
deriving DecidableEq

/-- `MLSMessage::wire_format`. -/
def MLSMessage.wire_format (m : MLSMessage) : WireFormat :=
  match m.payload with
  | .Plain _ => .Plain
  | .Cipher _ => .Cipher
  | .Welcome _ => .Welcome
  | .GroupInfo _ => .GroupInfo
  | .KeyPackage _ => .KeyPackage

/-- `group::GroupContext`. -/
structure GroupContext where
  protocol_version : Nat
  cipher_suite : Nat
  group_id : Bytes
  epoch : Nat
  tree_hash : Bytes
  confirmed_transcript_hash : Bytes
  extensions : Nat
deriving DecidableEq

/-- One entry of the proposal cache (reference, proposal, sender). -/
structure CachedProposal where
  proposal_ref : Nat
  proposal : Proposal
  sender : Sender
deriving DecidableEq

/-- `group::state::GroupState`, with the fields the message processor
reads and writes. -/
structure GroupState where
  proposals : List CachedProposal
  context : GroupContext
  public_tree : Nat
  interim_transcript_hash : Bytes
  pending_reinit : Option ReInitProposal
deriving DecidableEq

/-- `tree_kem::TreeKemPrivate` (owning leaf index plus opaque secrets). -/
structure TreeKemPrivate where
  self_index : LeafIndex
  secrets : Nat
deriving DecidableEq

/-- `commit::CommitGeneration`: a built but not yet applied commit. -/
structure CommitGeneration where
  content : MLSAuthenticatedContent
  pending_secrets : Option (TreeKemPrivate × Nat)
deriving DecidableEq

/-- The engine state behind the `MessageProcessor` trait: the group state
plus the group-only fields (`Group` in `group.rs`) the commit path
touches. -/
structure Engine where
  state : GroupState
  pending_commit : Option CommitGeneration
  private_tree : TreeKemPrivate
  key_schedule : Nat
  epoch_secrets : Nat
deriving DecidableEq

/-- `group::GroupError`, restricted to the constructors the embedded code
produces; `Other` carries every error raised inside an oracle. -/
inductive GroupError where
  | InvalidProtocolVersion (expected got : Nat)
  | InvalidGroupId (id : Bytes)
  | InvalidEpoch (epoch : Nat)
  | UnexpectedMessageType (expected : List WireFormat) (got : WireFormat)
  | UnencryptedApplicationMessage
  | NotCommitContent (t : ContentType)
  | GroupUsedAfterReInit
  | CommitMissingPath
  | InvalidConfirmationTag
  | ExistingPendingCommit
  | ExternalCommitMissingExternalInit
  | IdentityProviderError (e : Nat)
  | Other (code : Nat)
deriving DecidableEq

/-- `proposal_cache::ProposalSetEffects`: the summary of a filtered
proposal set.  `custom_path_required` records whether any Custom proposal
declares that it needs a path. -/
structure ProposalSetEffects where
  tree : Nat
  adds : List Nat
  added_leaf_indexes : List LeafIndex
  removed_leaves : List (LeafIndex × Nat)
  updates : List (LeafIndex × Nat)
  psks : List Nat
  reinit : Option ReInitProposal
  external_init : Option (LeafIndex × Bytes)
  group_context_ext : Option Nat
  custom_proposals : List CustomProposal
  custom_path_required : Bool
  rejected_proposals : List (Nat × Proposal)
deriving DecidableEq

/-- Whether the effects summarise an empty proposal set. -/
def ProposalSetEffects.is_empty (e : ProposalSetEffects) : Bool :=
  e.adds.isEmpty && e.updates.isEmpty && e.removed_leaves.isEmpty &&
    e.psks.isEmpty && e.custom_proposals.isEmpty && e.reinit.isNone &&
    e.external_init.isNone && e.group_context_ext.isNone

/-- Modelled from the spec: `ProposalSetEffects::path_update_required` is
implemented in `proposal_cache.rs`, which is not among the staged sources.
The spec states that the path is required iff the set contains any Update,
Remove, GroupContextExtensions or ExternalInit proposal, or the set is
empty, or any Custom proposal's declared path-required bit is set. -/
def ProposalSetEffects.path_update_required (e : ProposalSetEffects) : Bool :=
  e.group_context_ext.isSome || e.external_init.isSome || e.is_empty ||
    !e.updates.isEmpty || !e.removed_leaves.isEmpty || e.custom_path_required

/-- `message_processor::ProvisionalState`. -/
structure ProvisionalState where
  public_tree : Nat
  added_leaves : List (Nat × LeafIndex)
  removed_leaves : List (LeafIndex × Nat)
  updated_leaves : List (LeafIndex × Nat)
  group_context : GroupContext
  epoch : Nat
  path_update_required : Bool
  psks : List Nat
  reinit : Option ReInitProposal
  external_init : Option (LeafIndex × Bytes)
  custom_proposals : List CustomProposal
  rejected_proposals : List (Nat × Proposal)
deriving DecidableEq

/-- The roster-update struct literal built inside `make_state_update`.
The staged `roster.rs` and `message_processor.rs` come from two snapshots
of the crate (the latter's literal holds plain member lists), so the
literal is modelled by its own structure rather than by `RosterUpdate`. -/
structure StateRosterUpdate where
  added : List Member
  removed : List Member
  updated : List Member
deriving DecidableEq

/-- `message_processor::StateUpdate`. -/
structure StateUpdate where
  roster_update : StateRosterUpdate
  identity_events : List Nat
  added_psks : List Nat
  pending_reinit : Bool
  active : Bool
  epoch : Nat
  custom_proposals : List CustomProposal
  rejected_proposals : List (Nat × Proposal)
deriving DecidableEq

/-- `message_processor::Event` for the group event type. -/
inductive Event where
  | ApplicationMessage (data : Bytes)
  | Commit (update : StateUpdate)
  | Proposal (p : Proposal) (r : Nat)
deriving DecidableEq

/-- `message_processor::ProcessedMessage`. -/
structure ProcessedMessage where
  event : Event
  sender : Option Sender
  authenticated_data : Bytes
deriving DecidableEq

/-- `message_processor::EventOrContent`. -/
inductive EventOrContent where
  | Event (e : Event)
  | Content (c : MLSAuthenticatedContent)
deriving DecidableEq

/-- The collaborators of the message processor whose code is not among
the staged sources: the `MessageProcessor` trait methods implemented in
`group.rs`/the external group, the proposal cache, tree and transcript
operations, and the identity provider.  Every oracle is a pure function of
its arguments — the capabilities are stateless per the spec (§5) — so an
oracle call cannot mutate the engine; `process_ciphertext` and
`verify_plaintext_authentication` are modelled read-only, per the spec's
data-flow and cancellation notes.  Oracles fail with an arbitrary
`GroupError`. -/
structure Env where
  verify_plaintext_authentication :
    Engine → MLSPlaintext → Except GroupError EventOrContent
  process_ciphertext : Engine → MLSCiphertext → Except GroupError EventOrContent
  event_from_application : Bytes → Except GroupError Event
  proposal_ref_from_content : MLSAuthenticatedContent → Except GroupError Nat
  proposal_effects : Option LeafIndex → GroupState → Commit → Sender →
    Option Nat → Except GroupError ProposalSetEffects
  commit_sender : Sender → ProvisionalState → Except GroupError LeafIndex
  member_from_key_package : Nat → LeafIndex → Member
  member_from_leaf_node : Nat → LeafIndex → Member
  identity_events : StateRosterUpdate → Except Nat (List Nat)
  can_continue_processing : Engine → ProvisionalState → Bool
  min_epoch_available : Engine → Option Nat
  self_index : Engine → Option LeafIndex
  validate_update_path : UpdatePath → ProvisionalState → LeafIndex →
    Option Nat → Except GroupError UpdatePath
  apply_update_path : Engine → LeafIndex → UpdatePath → ProvisionalState →
    Except GroupError (Nat × Option (TreeKemPrivate × Nat))
  transcript_hashes : Bytes → MLSAuthenticatedContent →
    Except GroupError (Bytes × Bytes)
  update_hashes : Nat → LeafIndex → Except GroupError Nat
  tree_hash : Nat → Except GroupError Bytes
  derive_epoch_secrets : Engine → ProvisionalState →
    Option (TreeKemPrivate × Nat) → Bytes →
    Except GroupError (Nat × Nat × TreeKemPrivate)

/-- The header fields `check_metadata` reads from a Plain or Cipher
payload; `none` for the other payload kinds. -/
def message_meta : MLSMessagePayload →
    Option (Bytes × Nat × ContentType × WireFormat)
  | .Plain plaintext =>
    some (plaintext.content.group_id, plaintext.content.epoch,
      plaintext.content.content_type, .Plain)
  | .Cipher ciphertext =>
    some (ciphertext.group_id, ciphertext.epoch, ciphertext.content_type,
      .Cipher)
  | _ => none

/-- The body of `check_metadata` once header fields are extracted. -/
def check_metadata_fields (env : Env) (self : Engine) (group_id : Bytes)
    (epoch : Nat) (content_type : ContentType) (wire_format : WireFormat) :
    Except GroupError Unit :=
  let context := self.state.context
  if group_id ≠ context.group_id then .error (.InvalidGroupId group_id)
  else
    match (match content_type with
      | ContentType.Proposal =>
        if context.epoch ≠ epoch then Except.error (GroupError.InvalidEpoch epoch)
        else .ok ()
      | ContentType.Commit =>
        if context.epoch ≠ epoch then .error (.InvalidEpoch epoch) else .ok ()
      | ContentType.Application =>
        match env.min_epoch_available self with
        | some min_epoch =>
          if epoch < min_epoch then .error (.InvalidEpoch epoch) else .ok ()
        | none => .ok ()) with
    | .error e => .error e
    | .ok () =>
      if (content_type = .Proposal ∨ content_type = .Commit) ∧
          epoch ≠ context.epoch then
        .error (.InvalidEpoch epoch)
      else if wire_format = .Plain ∧ content_type = .Application then
        .error .UnencryptedApplicationMessage
      else .ok ()

/-- `MessageProcessor::check_metadata`. -/
def check_metadata (env : Env) (self : Engine) (message : MLSMessage) :
    Except GroupError Unit :=
  let context := self.state.context
  if message.version ≠ context.protocol_version then
    .error (.InvalidProtocolVersion context.protocol_version message.version)
  else
    match message_meta message.payload with
    | none => .ok ()
    | some (group_id, epoch, content_type, wire_format) =>
      check_metadata_fields env self group_id epoch content_type wire_format

/-- `MessageProcessor::calculate_provisional_state`. -/
def calculate_provisional_state (self : Engine)
    (proposals : ProposalSetEffects) : Except GroupError ProvisionalState :=
  let group_state := self.state
  if group_state.pending_reinit.isSome then .error .GroupUsedAfterReInit
  else
    let provisional_group_context :=
      match proposals.group_context_ext with
      | some ext => { group_state.context with extensions := ext }
      | none => group_state.context
    .ok { public_tree := proposals.tree
        , added_leaves := proposals.adds.zip proposals.added_leaf_indexes
        , removed_leaves := proposals.removed_leaves
        , updated_leaves := proposals.updates
        , epoch := provisional_group_context.epoch + 1
        , path_update_required := proposals.path_update_required
        , group_context := provisional_group_context
        , psks := proposals.psks
        , reinit := proposals.reinit
        , external_init := proposals.external_init
        , custom_proposals := proposals.custom_proposals
        , rejected_proposals := proposals.rejected_proposals }

/-- `MessageProcessor::make_state_update`: build the roster update (with
the committer's path leaf counted as an add for external commits, as an
update otherwise), query the identity provider, and assemble the
`StateUpdate`. -/
def make_state_update (env : Env) (provisional : ProvisionalState)
    (path : Option UpdatePath) (sender : LeafIndex) :
    Except GroupError StateUpdate :=
  let added0 := provisional.added_leaves.map
    (fun al => env.member_from_key_package al.1 al.2)
  let removed := provisional.removed_leaves.map
    (fun rl => env.member_from_leaf_node rl.2 rl.1)
  let updated0 := provisional.updated_leaves.map
    (fun ul => env.member_from_leaf_node ul.2 ul.1)
  let lists :=
    match path with
    | some p =>
      if provisional.external_init.isSome then
        (added0 ++ [env.member_from_leaf_node p.leaf_node sender], updated0)
      else
        (added0, updated0 ++ [env.member_from_leaf_node p.leaf_node sender])
    | none => (added0, updated0)
  let roster_update : StateRosterUpdate :=
    { added := lists.1, removed := removed, updated := lists.2 }
  match env.identity_events roster_update with
  | .error e => .error (.IdentityProviderError e)
  | .ok identity_events =>
    .ok { roster_update := roster_update
        , identity_events := identity_events
        , added_psks := provisional.psks
        , pending_reinit := provisional.reinit.isSome
        , active := true
        , epoch := provisional.epoch
        , custom_proposals := provisional.custom_proposals
        , rejected_proposals := provisional.rejected_proposals }

/-- Modelled from the spec: `update_key_schedule` is a trait method whose
implementations live outside the staged sources.  Per the spec (§5, §7,
§4.H) the commit pipeline "builds a provisional state to completion, then
atomically swaps it in": the new epoch secrets are derived first — a
fallible step that touches nothing — and only on success is the whole
provisional state installed: new context, tree, interim transcript hash,
cleared proposal cache, cleared pending reinit and pending commit. -/
def update_key_schedule (env : Env) (self : Engine)
    (secrets : Option (TreeKemPrivate × Nat))
    (interim_transcript_hash : Bytes) (confirmation_tag : Bytes)
    (provisional : ProvisionalState) : Engine × Except GroupError Unit :=
  match env.derive_epoch_secrets self provisional secrets confirmation_tag with
  | .error e => (self, .error e)
  | .ok (new_secrets, new_schedule, new_private) =>
    ({ state := { proposals := []
                , context := provisional.group_context
                , public_tree := provisional.public_tree
                , interim_transcript_hash := interim_transcript_hash
                , pending_reinit := none }
      , pending_commit := none
      , private_tree := new_private
      , key_schedule := new_schedule
      , epoch_secrets := new_secrets }, .ok ())

/-- The provisional context update `group_context.epoch = epoch` performed
just before the update path is applied. -/
def bump_epoch (p : ProvisionalState) : ProvisionalState :=
  { p with group_context := { p.group_context with epoch := p.epoch } }

/-- The provisional state at the end of a `process_commit` run: epoch
bumped into the context, confirmed transcript hash written, tree rewritten
by `update_hashes` and its hash written into the context. -/
def final_provisional (provisional : ProvisionalState)
    (confirmed_transcript_hash : Bytes) (tree2 : Nat) (tree_hash : Bytes) :
    ProvisionalState :=
  { provisional with
      public_tree := tree2
    , group_context := { provisional.group_context with
        epoch := provisional.epoch
      , confirmed_transcript_hash := confirmed_transcript_hash
      , tree_hash := tree_hash } }

/-- `MessageProcessor::process_commit`, threading the engine state
explicitly: every propagated error returns the engine unchanged except
where the source mutates before returning. -/
def process_commit (env : Env) (self : Engine)
    (auth_content : MLSAuthenticatedContent) (time_sent : Option Nat) :
    Engine × Except GroupError StateUpdate :=
  match auth_content.content.content with
  | .Application _ =>
    (self, .error (.NotCommitContent auth_content.content.content_type))
  | .Proposal _ =>
    (self, .error (.NotCommitContent auth_content.content.content_type))
  | .Commit commit =>
    match env.proposal_effects (env.self_index self) self.state commit
        auth_content.content.sender time_sent with
    | .error e => (self, .error e)
    | .ok proposal_effects =>
      match calculate_provisional_state self proposal_effects with
      | .error e => (self, .error e)
      | .ok provisional_state =>
        match env.commit_sender auth_content.content.sender provisional_state with
        | .error e => (self, .error e)
        | .ok sender =>
          match make_state_update env provisional_state commit.path sender with
          | .error e => (self, .error e)
          | .ok state_update =>
            if provisional_state.path_update_required ∧ commit.path.isNone then
              (self, .error .CommitMissingPath)
            else if ¬ env.can_continue_processing self provisional_state then
              (self, .ok { state_update with active := false })
            else
              match provisional_state.reinit with
              | some reinit =>
                ({ self with
                    state := { self.state with pending_reinit := some reinit } },
                  .ok { state_update with active := false })
              | none =>
                match (match commit.path with
                  | some update_path =>
                    (env.validate_update_path update_path provisional_state
                      sender time_sent).map some
                  | none => .ok none) with
                | .error e => (self, .error e)
                | .ok update_path =>
                  match (match update_path with
                    | some up =>
                      env.apply_update_path self sender up
                        (bump_epoch provisional_state)
                    | none => .ok (provisional_state.public_tree, none)) with
                  | .error e => (self, .error e)
                  | .ok (new_tree, new_secrets) =>
                    match env.transcript_hashes
                        self.state.interim_transcript_hash auth_content with
                    | .error e => (self, .error e)
                    | .ok (interim_transcript_hash, confirmed_transcript_hash) =>
                      match env.update_hashes new_tree sender with
                      | .error e => (self, .error e)
                      | .ok tree2 =>
                        match env.tree_hash tree2 with
                        | .error e => (self, .error e)
                        | .ok th =>
                          match auth_content.auth.confirmation_tag with
                          | some confirmation_tag =>
                            match update_key_schedule env self new_secrets
                                interim_transcript_hash confirmation_tag
                                (final_provisional provisional_state
                                  confirmed_transcript_hash tree2 th) with
                            | (self2, .ok _) => (self2, .ok state_update)
                            | (self2, .error e) => (self2, .error e)
                          | none => (self, .error .InvalidConfirmationTag)

/-- `MessageProcessor::process_proposal`: compute the proposal reference,
then cache the proposal when asked to. -/
def process_proposal (env : Env) (self : Engine)
    (auth_content : MLSAuthenticatedContent) (proposal : Proposal)
    (cache_proposal : Bool) : Engine × Except GroupError Nat :=
  match env.proposal_ref_from_content auth_content with
  | .error e => (self, .error e)
  | .ok proposal_ref =>
    if cache_proposal then
      ({ self with state := { self.state with
          proposals := self.state.proposals ++
            [⟨proposal_ref, proposal, auth_content.content.sender⟩] } },
        .ok proposal_ref)
    else (self, .ok proposal_ref)

/-- `MessageProcessor::process_auth_content`. -/
def process_auth_content (env : Env) (self : Engine)
    (auth_content : MLSAuthenticatedContent) (cache_proposal : Bool)
    (time_sent : Option Nat) : Engine × Except GroupError ProcessedMessage :=
  match auth_content.content.content with
  | .Application data =>
    match env.event_from_application data with
    | .error e => (self, .error e)
    | .ok event =>
      (self, .ok ⟨event, some auth_content.content.sender,
        auth_content.content.authenticated_data⟩)
  | .Commit _ =>
    match process_commit env self auth_content time_sent with
    | (self2, .error e) => (self2, .error e)
    | (self2, .ok update) =>
      (self2, .ok ⟨.Commit update, some auth_content.content.sender,
        auth_content.content.authenticated_data⟩)
  | .Proposal proposal =>
    match process_proposal env self auth_content proposal cache_proposal with
    | (self2, .error e) => (self2, .error e)
    | (self2, .ok proposal_ref) =>
      (self2, .ok ⟨.Proposal proposal proposal_ref,
        some auth_content.content.sender,
        auth_content.content.authenticated_data⟩)

/-- `MessageProcessor::process_incoming_message_with_time`. -/
def process_incoming_message_with_time (env : Env) (self : Engine)
    (message : MLSMessage) (cache_proposal : Bool) (time_sent : Option Nat) :
    Engine × Except GroupError ProcessedMessage :=
  match check_metadata env self message with
  | .error e => (self, .error e)
  | .ok _ =>
    match (match message.payload with
      | .Plain plaintext => env.verify_plaintext_authentication self plaintext
      | .Cipher cipher_text => env.process_ciphertext self cipher_text
      | _ => .error (.UnexpectedMessageType [WireFormat.Plain, WireFormat.Cipher]
          message.wire_format)) with
    | .error e => (self, .error e)
    | .ok (.Event event) => (self, .ok ⟨event, none, []⟩)
    | .ok (.Content content) =>
      process_auth_content env self content cache_proposal time_sent

/-- `MessageProcessor::process_incoming_message`. -/
def process_incoming_message (env : Env) (self : Engine)
    (message : MLSMessage) (cache_proposal : Bool) :
    Engine × Except GroupError ProcessedMessage :=
  process_incoming_message_with_time env self message cache_proposal none

theorem update_key_schedule_error_state (env : Env) (self : Engine)
    (secrets : Option (TreeKemPrivate × Nat)) (interim tag : Bytes)
    (p : ProvisionalState) (e : GroupError)
    (h : (update_key_schedule env self secrets interim tag p).2 = .error e) :
    (update_key_schedule env self secrets interim tag p).1 = self := by
  unfold update_key_schedule at h ⊢
  cases hd : env.derive_epoch_secrets self p secrets tag with
  | error e2 => rfl
  | ok v =>
    rw [hd] at h
    obtain ⟨a, b, c⟩ := v
    simp at h

theorem update_key_schedule_pair_state {env : Env} {self : Engine}
    {secrets : Option (TreeKemPrivate × Nat)} {interim tag : Bytes}
    {p : ProvisionalState} {self2 : Engine} {e : GroupError}
    (heq : update_key_schedule env self secrets interim tag p =
      (self2, .error e)) : self2 = self := by
  have h2 : (update_key_schedule env self secrets interim tag p).2 = .error e := by
    rw [heq]
  have h1 := update_key_schedule_error_state env self secrets interim tag p e h2
  rw [heq] at h1
  exact h1

theorem process_commit_error_state (env : Env) (self : Engine)
    (auth_content : MLSAuthenticatedContent) (time_sent : Option Nat)
    (e : GroupError) :
    (process_commit env self auth_content time_sent).2 = .error e →
      (process_commit env self auth_content time_sent).1 = self := by
  unfold process_commit
  repeat' split
  all_goals intro h
  all_goals try rfl
  all_goals try (cases h)
  all_goals exact update_key_schedule_pair_state (by assumption)

theorem process_commit_pair_state {env : Env} {self : Engine}
    {auth_content : MLSAuthenticatedContent} {time_sent : Option Nat}
    {self2 : Engine} {e : GroupError}
    (heq : process_commit env self auth_content time_sent =
      (self2, .error e)) : self2 = self := by
  have h1 := process_commit_error_state env self auth_content time_sent e
    (by rw [heq])
  rw [heq] at h1
  exact h1

theorem process_proposal_error_state (env : Env) (self : Engine)
    (auth_content : MLSAuthenticatedContent) (proposal : Proposal)
    (cache_proposal : Bool) (e : GroupError) :
    (process_proposal env self auth_content proposal cache_proposal).2 =
        .error e →
      (process_proposal env self auth_content proposal cache_proposal).1 =
        self := by
  unfold process_proposal
  repeat' split
  all_goals intro h
  all_goals try rfl
  all_goals cases h

theorem process_proposal_pair_state {env : Env} {self : Engine}
    {auth_content : MLSAuthenticatedContent} {proposal : Proposal}
    {cache_proposal : Bool} {self2 : Engine} {e : GroupError}
    (heq : process_proposal env self auth_content proposal cache_proposal =
      (self2, .error e)) : self2 = self := by
  have h1 := process_proposal_error_state env self auth_content proposal
    cache_proposal e (by rw [heq])
  rw [heq] at h1
  exact h1

theorem process_auth_content_error_state (env : Env) (self : Engine)
    (auth_content : MLSAuthenticatedContent) (cache_proposal : Bool)
    (time_sent : Option Nat) (e : GroupError) :
    (process_auth_content env self auth_content cache_proposal time_sent).2 =
        .error e →
      (process_auth_content env self auth_content cache_proposal time_sent).1 =
        self := by
  unfold process_auth_content
  repeat' split
  all_goals intro h
  all_goals try rfl
  all_goals try (cases h)
  all_goals first
    | exact process_commit_pair_state (by assumption)
    | exact process_proposal_pair_state (by assumption)

theorem process_auth_content_pair_state {env : Env} {self : Engine}
    {auth_content : MLSAuthenticatedContent} {cache_proposal : Bool}
    {time_sent : Option Nat} {self2 : Engine} {e : GroupError}
    (heq : process_auth_content env self auth_content cache_proposal
      time_sent = (self2, .error e)) : self2 = self := by
  have h1 := process_auth_content_error_state env self auth_content
    cache_proposal time_sent e (by rw [heq])
  rw [heq] at h1
  exact h1

/-- Claim C1: whenever `process_incoming_message` (with or without an
explicit time) returns an error, the engine state it returns is the
pre-call engine state, for every environment, message and flag — the
whole decode/validate/provisional-state/apply pipeline mutates nothing
before its last fallible step, so the serialized state after a failed
call equals its pre-call serialization. -/
theorem process_incoming_message_error_no_mutation (env : Env)
    (self : Engine) (message : MLSMessage) (cache_proposal : Bool)
    (time_sent : Option Nat) (e : GroupError)
    (h : (process_incoming_message_with_time env self message cache_proposal
      time_sent).2 = .error e) :
    (process_incoming_message_with_time env self message cache_proposal
      time_sent).1 = self := by
  revert h
  unfold process_incoming_message_with_time
  repeat' split
  all_goals intro h
  all_goals try rfl
  all_goals exact process_auth_content_error_state _ _ _ _ _ _ h

/-- An environment of trivial oracles, used to evaluate the pipeline on
concrete inputs. -/
def dummyEnv : Env :=
  { verify_plaintext_authentication := fun _ pt =>
      .ok (.Content ⟨.Plain, pt.content, pt.auth⟩)
  , process_ciphertext := fun _ _ => .error (.Other 0)
  , event_from_application := fun d => .ok (.ApplicationMessage d)
  , proposal_ref_from_content := fun _ => .ok 0
  , proposal_effects := fun _ _ _ _ _ => .error (.Other 1)
  , commit_sender := fun _ _ => .ok 0
  , member_from_key_package := fun k i => ⟨i, k, 0, 0⟩
  , member_from_leaf_node := fun n i => ⟨i, n, 0, 0⟩
  , identity_events := fun _ => .ok []
  , can_continue_processing := fun _ _ => true
  , min_epoch_available := fun _ => none
  , self_index := fun _ => some 0
  , validate_update_path := fun up _ _ _ => .ok up
  , apply_update_path := fun _ _ _ p => .ok (p.public_tree, none)
  , transcript_hashes := fun _ _ => .ok ([], [])
  , update_hashes := fun t _ => .ok t
  , tree_hash := fun _ => .ok []
  , derive_epoch_secrets := fun _ _ _ _ => .ok (0, 0, ⟨0, 0⟩) }

/-- A concrete group context: version 1, suite 1, group id `[1]`,
epoch 5. -/
def testContext : GroupContext := ⟨1, 1, [1], 5, [], [], 0⟩

/-- A concrete engine at `testContext` with empty caches and no pending
commit. -/
def testEngine : Engine := ⟨⟨[], testContext, 0, [], none⟩, none, ⟨0, 0⟩, 0, 0⟩

/-- A message whose protocol version does not match the group's. -/
def badVersionMessage : MLSMessage := ⟨2, .Welcome 0⟩

/-- Witness for C1: a concrete failing call leaves the engine intact. -/
theorem process_incoming_message_error_no_mutation_witness :
    (process_incoming_message_with_time dummyEnv testEngine
        badVersionMessage true none).2 =
        .error (.InvalidProtocolVersion 1 2) ∧
      (process_incoming_message_with_time dummyEnv testEngine
        badVersionMessage true none).1 = testEngine :=
  ⟨by decide,
    process_incoming_message_error_no_mutation dummyEnv testEngine
      badVersionMessage true none (.InvalidProtocolVersion 1 2) (by decide)⟩

/-- Claim C6 as amended: a Plain or Cipher message carrying Proposal or
Commit content whose epoch differs from the current context epoch is
rejected with `InvalidEpoch(epoch)` and the state is untouched — provided
the message's protocol version and group id match the context (a mismatch
there is reported first, see the counterexample). -/
theorem stale_epoch_rejected (env : Env) (self : Engine)
    (message : MLSMessage) (cache_proposal : Bool) (time_sent : Option Nat)
    (group_id : Bytes) (epoch : Nat) (content_type : ContentType)
    (wire_format : WireFormat)
    (hmeta : message_meta message.payload =
      some (group_id, epoch, content_type, wire_format))
    (hver : message.version = self.state.context.protocol_version)
    (hgid : group_id = self.state.context.group_id)
    (hct : content_type = .Proposal ∨ content_type = .Commit)
    (hep : epoch ≠ self.state.context.epoch) :
    process_incoming_message_with_time env self message cache_proposal
      time_sent = (self, .error (.InvalidEpoch epoch)) := by
  have hcm : check_metadata env self message = .error (.InvalidEpoch epoch) := by
    unfold check_metadata
    rw [if_neg (by simp [hver]), hmeta]
    rcases hct with rfl | rfl <;>
      simp [check_metadata_fields, hgid, Ne.symm hep]
  unfold process_incoming_message_with_time
  rw [hcm]

/-- A Plain Commit message for epoch 4 against a group at epoch 5. -/
def staleCommitMessage : MLSMessage :=
  ⟨1, .Plain ⟨⟨[1], 4, .Member 1, [], .Commit ⟨[], none⟩⟩, ⟨[], none⟩, none⟩⟩

/-- Witness for C6: the concrete stale commit is rejected with
`InvalidEpoch 4`. -/
theorem stale_epoch_rejected_witness :
    process_incoming_message_with_time dummyEnv testEngine
        staleCommitMessage true none =
      (testEngine, .error (.InvalidEpoch 4)) :=
  stale_epoch_rejected dummyEnv testEngine staleCommitMessage true none
    [1] 4 .Commit .Plain rfl rfl rfl (Or.inr rfl) (by decide)

/-- The stale commit of `staleCommitMessage`, sent with a wrong protocol
version as well. -/
def staleCommitBadVersion : MLSMessage :=
  ⟨2, .Plain ⟨⟨[1], 4, .Member 1, [], .Commit ⟨[], none⟩⟩, ⟨[], none⟩, none⟩⟩

/-- Counterexample to C6 as stated: a Plain Commit message whose epoch (4)
differs from the context epoch (5) is not always rejected with
`InvalidEpoch` — when its protocol version also mismatches, the version
check fires first. -/
theorem stale_epoch_not_always_invalid_epoch :
    message_meta staleCommitBadVersion.payload =
        some ([1], 4, .Commit, .Plain) ∧
      testEngine.state.context.epoch = 5 ∧
      (process_incoming_message_with_time dummyEnv testEngine
        staleCommitBadVersion true none).2 =
        .error (.InvalidProtocolVersion 1 2) ∧
      (process_incoming_message_with_time dummyEnv testEngine
        staleCommitBadVersion true none).2 ≠
        .error (.InvalidEpoch 4) := by
  refine ⟨rfl, rfl, by decide, by decide⟩

/-- Claim C7 as amended: a Plain-framed message carrying Application
content is rejected with `UnencryptedApplicationMessage` — provided the
version and group id match the context and the epoch passes the
application epoch-availability check, all of which are checked first (see
the counterexample). -/
theorem plain_application_rejected (env : Env) (self : Engine)
    (message : MLSMessage) (plaintext : MLSPlaintext) (cache_proposal : Bool)
    (time_sent : Option Nat)
    (hpayload : message.payload = .Plain plaintext)
    (hct : plaintext.content.content_type = .Application)
    (hver : message.version = self.state.context.protocol_version)
    (hgid : plaintext.content.group_id = self.state.context.group_id)
    (hmin : ∀ m, env.min_epoch_available self = some m →
      ¬ plaintext.content.epoch < m) :
    process_incoming_message_with_time env self message cache_proposal
      time_sent = (self, .error .UnencryptedApplicationMessage) := by
  have hcm : check_metadata env self message =
      .error .UnencryptedApplicationMessage := by
    unfold check_metadata
    rw [if_neg (by simp [hver]), hpayload]
    show check_metadata_fields env self plaintext.content.group_id
        plaintext.content.epoch plaintext.content.content_type .Plain = _
    unfold check_metadata_fields
    rw [if_neg (by simp [hgid]), hct]
    cases hm : env.min_epoch_available self with
    | none => simp
    | some m => simp [hmin m hm]
  unfold process_incoming_message_with_time
  rw [hcm]

/-- A Plain Application message matching the test context. -/
def plainAppMessage : MLSMessage :=
  ⟨1, .Plain ⟨⟨[1], 5, .Member 1, [], .Application [1, 2]⟩, ⟨[], none⟩, none⟩⟩

/-- Witness for C7: the concrete plaintext application message is
rejected. -/
theorem plain_application_rejected_witness :
    process_incoming_message_with_time dummyEnv testEngine plainAppMessage
        true none =
      (testEngine, .error .UnencryptedApplicationMessage) :=
  plain_application_rejected dummyEnv testEngine plainAppMessage
    ⟨⟨[1], 5, .Member 1, [], .Application [1, 2]⟩, ⟨[], none⟩, none⟩ true none
    rfl rfl rfl rfl (by intro m hm; simp [dummyEnv] at hm)

/-- A Plain Application message addressed to a different group id. -/
def plainAppWrongGroup : MLSMessage :=
  ⟨1, .Plain ⟨⟨[9], 5, .Member 1, [], .Application [1]⟩, ⟨[], none⟩, none⟩⟩

/-- Counterexample to C7 as stated: not every Plain Application message is
rejected with `UnencryptedApplicationMessage` — a group-id mismatch is
reported first. -/
theorem plain_application_not_always_unencrypted_error :
    plainAppWrongGroup.wire_format = .Plain ∧
      message_meta plainAppWrongGroup.payload =
        some ([9], 5, .Application, .Plain) ∧
      (process_incoming_message_with_time dummyEnv testEngine
        plainAppWrongGroup true none).2 = .error (.InvalidGroupId [9]) ∧
      (process_incoming_message_with_time dummyEnv testEngine
        plainAppWrongGroup true none).2 ≠
        .error .UnencryptedApplicationMessage := by
  refine ⟨rfl, rfl, by decide, by decide⟩

theorem calculate_provisional_state_path_req {self : Engine}
    {effects : ProposalSetEffects} {provisional : ProvisionalState}
    (h : calculate_provisional_state self effects = .ok provisional) :
    provisional.path_update_required = effects.path_update_required := by
  unfold calculate_provisional_state at h
  by_cases hp : self.state.pending_reinit.isSome
  · rw [if_pos hp] at h; cases h
  · rw [if_neg hp] at h
    cases h
    rfl

/-- Claim C5: when the filtered proposal set requires an update path —
`ProposalSetEffects.path_update_required`, true exactly when the set holds
any Update, Remove, GroupContextExtensions or ExternalInit proposal, is
empty, or a Custom proposal demands a path — and the commit carries no
path, `process_commit` fails with `CommitMissingPath` (and mutates
nothing); when the set does not require a path, the same pathless commit
proceeds past the check and, with the remaining steps succeeding, returns
the state update without error. -/
theorem process_commit_path_requirement (env : Env) (self : Engine)
    (auth_content : MLSAuthenticatedContent) (time_sent : Option Nat)
    (commit : Commit) (effects : ProposalSetEffects)
    (provisional : ProvisionalState) (sender : LeafIndex) (su : StateUpdate)
    (ih cth : Bytes) (tree2 : Nat) (th tag : Bytes)
    (secrets3 : Nat × Nat × TreeKemPrivate)
    (hcontent : auth_content.content.content = .Commit commit)
    (heffects : env.proposal_effects (env.self_index self) self.state commit
      auth_content.content.sender time_sent = .ok effects)
    (hprov : calculate_provisional_state self effects = .ok provisional)
    (hsender : env.commit_sender auth_content.content.sender provisional =
      .ok sender)
    (hsu : make_state_update env provisional commit.path sender = .ok su)
    (hpath : commit.path = none) :
    (effects.path_update_required = true →
      process_commit env self auth_content time_sent =
        (self, .error .CommitMissingPath)) ∧
    (effects.path_update_required = false →
      env.can_continue_processing self provisional = true →
      provisional.reinit = none →
      env.transcript_hashes self.state.interim_transcript_hash auth_content =
        .ok (ih, cth) →
      env.update_hashes provisional.public_tree sender = .ok tree2 →
      env.tree_hash tree2 = .ok th →
      auth_content.auth.confirmation_tag = some tag →
      env.derive_epoch_secrets self
        (final_provisional provisional cth tree2 th) none tag = .ok secrets3 →
      (process_commit env self auth_content time_sent).2 = .ok su) := by
  constructor
  · intro hreq
    have hreq2 : provisional.path_update_required = true :=
      (calculate_provisional_state_path_req hprov).trans hreq
    simp only [process_commit, hcontent, heffects, hprov, hsender, hsu]
    simp [hreq2, hpath]
  · intro hreq hcont hrein htrans hupd hth htag hder
    have hreq2 : provisional.path_update_required = false :=
      (calculate_provisional_state_path_req hprov).trans hreq
    simp only [process_commit, hcontent, heffects, hprov, hsender, hsu]
    simp only [hreq2, hpath, hcont, hrein, htrans, hupd, hth, htag,
      update_key_schedule, hder]
    simp

/-- Proposal-set effects of an empty proposal set. -/
def emptyEffects : ProposalSetEffects :=
  ⟨0, [], [], [], [], [], none, none, none, [], false, []⟩

/-- Proposal-set effects of a single Add proposal (key package 7 placed at
leaf 1). -/
def addEffects : ProposalSetEffects :=
  { emptyEffects with adds := [7], added_leaf_indexes := [1] }

/-- An environment whose proposal cache yields `emptyEffects` for an empty
commit and `addEffects` for a non-empty one. -/
def pathEnv : Env :=
  { dummyEnv with
      proposal_effects := fun _ _ c _ _ =>
        .ok (if c.proposals.isEmpty then emptyEffects else addEffects) }

/-- Authenticated content of a pathless empty commit at the test group. -/
def emptyCommitAuth : MLSAuthenticatedContent :=
  ⟨.Plain, ⟨[1], 5, .Member 0, [], .Commit ⟨[], none⟩⟩, ⟨[], some [4]⟩⟩

/-- Authenticated content of a pathless single-Add commit at the test
group. -/
def addCommitAuth : MLSAuthenticatedContent :=
  ⟨.Plain, ⟨[1], 5, .Member 0, [], .Commit ⟨[.Proposal (.Add 7)], none⟩⟩,
    ⟨[], some [4]⟩⟩

/-- The provisional state of the empty commit at `testEngine`. -/
def provEmptyVal : ProvisionalState :=
  ⟨0, [], [], [], testContext, 6, true, [], none, none, [], []⟩

/-- The provisional state of the single-Add commit at `testEngine`. -/
def provAddVal : ProvisionalState :=
  ⟨0, [(7, 1)], [], [], testContext, 6, false, [], none, none, [], []⟩

/-- The state update of the empty commit. -/
def suEmptyVal : StateUpdate :=
  ⟨⟨[], [], []⟩, [], [], false, true, 6, [], []⟩

/-- The state update of the single-Add commit. -/
def suAddVal : StateUpdate :=
  ⟨⟨[⟨1, 7, 0, 0⟩], [], []⟩, [], [], false, true, 6, [], []⟩

/-- Witness for C5: the concrete pathless empty commit is rejected with
`CommitMissingPath`; the concrete pathless Add-only commit succeeds. -/
theorem process_commit_path_requirement_witness :
    process_commit pathEnv testEngine emptyCommitAuth none =
        (testEngine, .error .CommitMissingPath) ∧
      (process_commit pathEnv testEngine addCommitAuth none).2 =
        .ok suAddVal :=
  ⟨(process_commit_path_requirement pathEnv testEngine emptyCommitAuth none
      ⟨[], none⟩ emptyEffects provEmptyVal 0 suEmptyVal [] [] 0 [] [4]
      (0, 0, ⟨0, 0⟩) rfl rfl rfl rfl rfl rfl).1 rfl,
    (process_commit_path_requirement pathEnv testEngine addCommitAuth none
      ⟨[.Proposal (.Add 7)], none⟩ addEffects provAddVal 0 suAddVal [] [] 0 []
      [4] (0, 0, ⟨0, 0⟩) rfl rfl rfl rfl rfl rfl).2 rfl rfl rfl rfl rfl rfl
      rfl rfl⟩

/-! Commit construction, from `aws-mls/src/group/commit.rs`. -/

/-- `commit::CommitOutput`. -/
structure CommitOutput where
  commit_message : MLSMessage
  welcome_message : Option MLSMessage
deriving DecidableEq

/-- Result of TreeKEM `encap`: the update path, path secrets and root
secret, plus the tree, private tree and group context `encap` rewrites
through its mutable borrows. -/
structure EncapGen where
  update_path : UpdatePath
  path_secrets : Nat
  root_secret : Nat
  new_tree : Nat
  new_private : TreeKemPrivate
  new_context : GroupContext
deriving DecidableEq

/-- Result of `KeySchedule::from_key_schedule`. -/
structure KeyScheduleResult where
  key_schedule : Nat
  confirmation_key : Nat
  joiner_secret : Nat
deriving DecidableEq

/-- The collaborators of `commit_internal` whose code is not among the
staged sources: the client preferences, signer lookup, the proposal
cache's `prepare_commit`, TreeKEM encap, transcript and key-schedule
derivation, group-info signing, welcome assembly and wire formatting.
All oracles are stateless pure functions of their arguments. -/
structure CommitEnv where
  force_commit_path_update : Bool
  encryption_mode : Nat
  ratchet_tree_extension : Bool
  signer_for_identity : Option Nat → Except GroupError Nat
  signer : Except GroupError Nat
  prepare_commit : Sender → List Proposal → GroupState → Option Nat →
    Except GroupError (List ProposalOrRef × ProposalSetEffects)
  provisional_private_tree : Engine → ProvisionalState →
    Except GroupError TreeKemPrivate
  encap : Nat → TreeKemPrivate → GroupContext → List LeafIndex → Nat →
    Option Nat → Except GroupError EncapGen
  update_hashes : Nat → LeafIndex → Except GroupError Nat
  tree_hash : Nat → Except GroupError Bytes
  commit_secret_from_root : Option Nat → Except GroupError Nat
  resolve_psk_secret : List Nat → Except GroupError Nat
  new_signed : GroupContext → Sender → Content → Nat → Nat → Bytes →
    Except GroupError MLSAuthenticatedContent
  confirmed_transcript_hash_create : Bytes → MLSAuthenticatedContent →
    Except GroupError Bytes
  group_info_extensions_build : Bool → Nat → Nat → Except GroupError Nat
  key_schedule_from : Nat → Nat → GroupContext → Nat →
    Except GroupError KeyScheduleResult
  confirmation_tag_create : Nat → Bytes → Except GroupError Bytes
  sign_group_info : GroupContext → Nat → Bytes → LeafIndex → Nat →
    Except GroupError Nat
  make_welcome_message : List (Nat × LeafIndex) → Nat → Nat → Option Nat →
    List Nat → Nat → Except GroupError (Option MLSMessage)
  format_for_wire : MLSAuthenticatedContent → Except GroupError MLSMessage

/-- The sender of the commit being built: the committing member, or
`NewMemberCommit` for an external commit. -/
def commit_internal_sender (self : Engine) (external_leaf : Option Nat) :
    Sender :=
  match external_leaf with
  | some _ => Sender.NewMemberCommit
  | none => Sender.Member self.private_tree.self_index

/-- Store a built commit generation as the engine's pending commit
(`self.pending_commit = Some(pending_commit)`). -/
def store_pending (self1 : Engine) (auth : MLSAuthenticatedContent)
    (secrets : Option (TreeKemPrivate × Nat)) : Engine :=
  { self1 with pending_commit := some { content := auth
                                      , pending_secrets := secrets } }

/-- The tail of `commit_internal` after the provisional state and private
tree are in place (`self1` already carries the external-commit index
rewrite, which the source performs on `self` before this point). -/
def commit_internal_rest (cenv : CommitEnv) (self1 : Engine) (sender : Sender)
    (new_signer old_signer : Nat) (commit_proposals : List ProposalOrRef)
    (provisional_state : ProvisionalState)
    (provisional_private_tree : TreeKemPrivate) (authenticated_data : Bytes)
    (group_info_extensions : Nat) (signing_identity : Option Nat) :
    Engine × Except GroupError CommitOutput :=
  match (if cenv.force_commit_path_update ||
      provisional_state.path_update_required then
    (cenv.encap provisional_state.public_tree provisional_private_tree
      { provisional_state.group_context with
          epoch := provisional_state.group_context.epoch + 1 }
      (provisional_state.added_leaves.map (fun al => al.2)) new_signer
      signing_identity).map
      (fun eg => (some eg.update_path, some eg.path_secrets,
        some eg.root_secret, eg.new_tree, eg.new_private, eg.new_context))
  else
    match cenv.update_hashes provisional_state.public_tree
        provisional_private_tree.self_index with
    | .error e => .error e
    | .ok tree2 =>
      match cenv.tree_hash tree2 with
      | .error e => .error e
      | .ok th =>
        .ok (none, none, none, tree2, provisional_private_tree,
          { provisional_state.group_context with
              epoch := provisional_state.group_context.epoch + 1
            , tree_hash := th })) with
  | .error e => (self1, .error e)
  | .ok (update_path, path_secrets, root_secret, tree_final, private_final,
      ctx1) =>
    match cenv.commit_secret_from_root root_secret with
    | .error e => (self1, .error e)
    | .ok commit_secret =>
      match cenv.resolve_psk_secret provisional_state.psks with
      | .error e => (self1, .error e)
      | .ok psk_secret =>
        match cenv.new_signed self1.state.context sender
            (Content.Commit ⟨commit_proposals, update_path⟩) old_signer
            cenv.encryption_mode authenticated_data with
        | .error e => (self1, .error e)
        | .ok auth_content0 =>
          match cenv.confirmed_transcript_hash_create
              self1.state.interim_transcript_hash auth_content0 with
          | .error e => (self1, .error e)
          | .ok confirmed_transcript_hash =>
            match cenv.group_info_extensions_build
                cenv.ratchet_tree_extension tree_final
                group_info_extensions with
            | .error e => (self1, .error e)
            | .ok extensions =>
              match cenv.key_schedule_from self1.key_schedule commit_secret
                  { ctx1 with
                      confirmed_transcript_hash := confirmed_transcript_hash }
                  psk_secret with
              | .error e => (self1, .error e)
              | .ok ks =>
                match cenv.confirmation_tag_create ks.confirmation_key
                    confirmed_transcript_hash with
                | .error e => (self1, .error e)
                | .ok confirmation_tag =>
                  match cenv.sign_group_info
                      { ctx1 with confirmed_transcript_hash :=
                          confirmed_transcript_hash }
                      extensions confirmation_tag private_final.self_index
                      new_signer with
                  | .error e => (self1, .error e)
                  | .ok group_info =>
                    match cenv.make_welcome_message
                        provisional_state.added_leaves ks.joiner_secret
                        psk_secret path_secrets provisional_state.psks
                        group_info with
                    | .error e => (self1, .error e)
                    | .ok welcome_message =>
                      match cenv.format_for_wire
                          { auth_content0 with auth :=
                            { auth_content0.auth with
                                confirmation_tag := some confirmation_tag } } with
                      | .error e => (self1, .error e)
                      | .ok commit_message =>
                        (store_pending self1
                            { auth_content0 with auth :=
                              { auth_content0.auth with
                                  confirmation_tag := some confirmation_tag } }
                            (root_secret.map (fun rs => (private_final, rs))),
                          .ok { commit_message := commit_message
                              , welcome_message := welcome_message })

/-- `Group::commit_internal`: reject when a pending commit exists, build
the commit, and store it as the pending commit on success. -/
def commit_internal (cenv : CommitEnv) (self : Engine)
    (proposals : List Proposal) (external_leaf : Option Nat)
    (authenticated_data : Bytes) (group_info_extensions : Nat)
    (signing_identity : Option Nat) : Engine × Except GroupError CommitOutput :=
  if self.pending_commit.isSome then (self, .error .ExistingPendingCommit)
  else
    match (match external_leaf with
      | some leaf_node => cenv.signer_for_identity (some leaf_node)
      | none => cenv.signer_for_identity signing_identity) with
    | .error e => (self, .error e)
    | .ok new_signer =>
      match (match external_leaf with
        | some leaf_node => cenv.signer_for_identity (some leaf_node)
        | none => cenv.signer) with
      | .error e => (self, .error e)
      | .ok old_signer =>
        match cenv.prepare_commit (commit_internal_sender self external_leaf)
            proposals self.state external_leaf with
        | .error e => (self, .error e)
        | .ok (commit_proposals, proposal_effects) =>
          match calculate_provisional_state self proposal_effects with
          | .error e => (self, .error e)
          | .ok provisional_state =>
            match cenv.provisional_private_tree self provisional_state with
            | .error e => (self, .error e)
            | .ok ppt0 =>
              match (match external_leaf with
                | some _ =>
                  match provisional_state.external_init with
                  | none =>
                    Except.error GroupError.ExternalCommitMissingExternalInit
                  | some ei => .ok { ppt0 with self_index := ei.1 }
                | none => .ok ppt0) with
              | .error e => (self, .error e)
              | .ok provisional_private_tree =>
                commit_internal_rest cenv
                  (match external_leaf with
                    | some _ => { self with private_tree :=
                        { self.private_tree with
                            self_index := provisional_private_tree.self_index } }
                    | none => self)
                  (commit_internal_sender self external_leaf) new_signer
                  old_signer commit_proposals provisional_state
                  provisional_private_tree authenticated_data
                  group_info_extensions signing_identity

/-- `Group::commit`: an ordinary (non-external) commit of the cached
proposals with default extensions. -/
def Group.commit (cenv : CommitEnv) (self : Engine)
    (authenticated_data : Bytes) : Engine × Except GroupError CommitOutput :=
  commit_internal cenv self [] none authenticated_data 0 none

theorem commit_internal_rest_ok {cenv : CommitEnv} {self1 : Engine}
    {sender : Sender} {new_signer old_signer : Nat}
    {commit_proposals : List ProposalOrRef}
    {provisional_state : ProvisionalState}
    {provisional_private_tree : TreeKemPrivate} {ad : Bytes} {gie : Nat}
    {si : Option Nat} {st : Engine} {out : CommitOutput}
    (h : commit_internal_rest cenv self1 sender new_signer old_signer
      commit_proposals provisional_state provisional_private_tree ad gie si =
      (st, .ok out)) :
    ∃ gen : CommitGeneration, st.pending_commit = some gen ∧
      cenv.format_for_wire gen.content = .ok out.commit_message := by
  unfold commit_internal_rest at h
  repeat' split at h
  all_goals simp only [Prod.mk.injEq] at h
  all_goals try exact Except.noConfusion h.2
  obtain ⟨hst, hout⟩ := h
  subst hst
  cases hout
  exact ⟨_, rfl, by assumption⟩

/-- Claim C2: `commit` called with a pending commit in place fails with
`ExistingPendingCommit` and changes nothing; called with no pending
commit, on success it stores the newly built commit generation as the
group's pending commit (the Active to PendingCommit transition) and
returns a `CommitOutput` whose commit message is the wire form of that
stored generation's content, alongside the optional welcome message. -/
theorem commit_pending_transition (cenv : CommitEnv) (self : Engine)
    (ad : Bytes) :
    (self.pending_commit.isSome = true →
      Group.commit cenv self ad = (self, .error .ExistingPendingCommit)) ∧
    (self.pending_commit = none → ∀ (st : Engine) (out : CommitOutput),
      Group.commit cenv self ad = (st, .ok out) →
      ∃ gen : CommitGeneration, st.pending_commit = some gen ∧
        cenv.format_for_wire gen.content = .ok out.commit_message) := by
  constructor
  · intro hpc
    unfold Group.commit commit_internal
    rw [if_pos hpc]
  · intro hpc st out h
    unfold Group.commit commit_internal at h
    rw [if_neg (by simp [hpc])] at h
    repeat' split at h
    all_goals try (simp only [Prod.mk.injEq] at h)
    all_goals try exact Except.noConfusion h.2
    all_goals exact commit_internal_rest_ok h

end MlsSpec
